import Mathlib

/-!
Verification of the poly-event-sniper trading core.

This file gives a shallow embedding, in Lean, of the pure logic of the
trading pipeline: the price-threshold parser (`src/parsers/threshold.py`),
the portfolio manager (`src/managers/portfolio.py`), the Polymarket
executor (`src/executors/polymarket.py`), the orchestrator's dispatch
paths (`src/orchestrator.py`) and the subscription manager
(`src/managers/subscription.py`), and proves properties of that embedding.

Numbers (prices, quantities, times) are modelled by `ℚ`; Python `dict`s
by association lists; the wall clock, network responses and randomness
(uuid entropy) are passed in explicitly as parameters.
-/

namespace PES

/-- Association-list map with Python-dict semantics: `lookup` finds the
binding of a key, `insert` replaces an existing binding in place or
appends a new one, `erase` removes all bindings of a key. -/
abbrev AssocMap (κ α : Type) : Type := List (κ × α)

namespace AssocMap

variable {κ α : Type} [DecidableEq κ]

/-- Lookup the value bound to a key (Python `d.get(k)`). -/
def lookup : AssocMap κ α → κ → Option α
  | [], _ => none
  | (k, v) :: rest, k0 => if k0 = k then some v else lookup rest k0

/-- Insert or replace the binding of a key (Python `d[k] = v`). -/
def insert : AssocMap κ α → κ → α → AssocMap κ α
  | [], k0, v0 => [(k0, v0)]
  | (k, v) :: rest, k0, v0 =>
    if k0 = k then (k, v0) :: rest else (k, v) :: insert rest k0 v0

/-- Remove the binding of a key (Python `del d[k]`). -/
def erase : AssocMap κ α → κ → AssocMap κ α
  | [], _ => []
  | (k, v) :: rest, k0 => if k0 = k then erase rest k0 else (k, v) :: erase rest k0

/-- Key-membership test (Python `k in d`). -/
def contains (m : AssocMap κ α) (k : κ) : Bool := (m.lookup k).isSome

/-- Number of bindings (Python `len(d)`); for maps built by `insert` and
`erase` keys are unique, so this is the number of keys. -/
def size (m : AssocMap κ α) : Nat := m.length

theorem lookup_insert_self (m : AssocMap κ α) (k : κ) (v : α) :
    (m.insert k v).lookup k = some v := by
  induction m with
  | nil => simp [insert, lookup]
  | cons hd tl ih =>
    obtain ⟨k1, v1⟩ := hd
    by_cases h : k = k1 <;> simp [insert, lookup, h, ih]

theorem lookup_insert_ne (m : AssocMap κ α) (k k' : κ) (v : α) (h : k' ≠ k) :
    (m.insert k v).lookup k' = m.lookup k' := by
  induction m with
  | nil => simp [insert, lookup, h]
  | cons hd tl ih =>
    obtain ⟨k1, v1⟩ := hd
    by_cases h1 : k = k1
    · subst h1; simp [insert, lookup, h]
    · by_cases h2 : k' = k1 <;> simp [insert, lookup, h1, h2, ih]

theorem lookup_erase_self (m : AssocMap κ α) (k : κ) :
    (m.erase k).lookup k = none := by
  induction m with
  | nil => simp [erase, lookup]
  | cons hd tl ih =>
    obtain ⟨k1, v1⟩ := hd
    by_cases h : k = k1
    · subst h; simp [erase, ih]
    · simp [erase, lookup, h, ih]

theorem lookup_erase_ne (m : AssocMap κ α) (k k' : κ) (h : k' ≠ k) :
    (m.erase k).lookup k' = m.lookup k' := by
  induction m with
  | nil => simp [erase, lookup]
  | cons hd tl ih =>
    obtain ⟨k1, v1⟩ := hd
    by_cases h1 : k = k1
    · subst h1; simp [erase, lookup, h, ih]
    · by_cases h2 : k' = k1 <;> simp [erase, lookup, h1, h2, ih]

end AssocMap

/-- Trade direction (`src/models.py`, `Side`). -/
inductive Side
  | BUY
  | SELL
deriving DecidableEq

/-- Threshold comparison direction (`src/models.py`, the `comparison`
literal of `ThresholdRule`). -/
inductive Comparison
  | above
  | below
deriving DecidableEq

/-- Threshold rule configuration (`src/models.py`, `ThresholdRule`). -/
structure ThresholdRule where
  token_id : String
  trigger_side : Side
  threshold : ℚ
  comparison : Comparison
  size_usdc : ℚ
  reason_template : String
  cooldown_seconds : ℚ
deriving DecidableEq

/-- Trade signal (`src/models.py`, `TradeSignal`); the generation
timestamp field is not modelled, no claim depends on it. -/
structure TradeSignal where
  token_id : String
  side : Side
  size_usdc : ℚ
  reason : String
deriving DecidableEq

/-- Event kind (`src/models.py`, `EventType`). -/
inductive EventType
  | PRICE_CHANGE
  | BOOK_UPDATE
  | LAST_TRADE
  | TICK_SIZE_CHANGE
  | NEWS
  | SOCIAL
deriving DecidableEq

/-- Market event (`src/models.py`, `MarketEvent`); only the fields read by
the threshold parser and the orchestrator are modelled. -/
structure MarketEvent where
  event_type : EventType
  token_id : Option String
  best_bid : Option ℚ
  best_ask : Option ℚ
  last_price : Option ℚ
deriving DecidableEq

/-- `MarketEvent.is_market_event` (`src/models.py`): token present and the
event type is one of the four market-data kinds. -/
def MarketEvent.is_market_event (e : MarketEvent) : Bool :=
  e.token_id.isSome &&
    (e.event_type = EventType.PRICE_CHANGE || e.event_type = EventType.BOOK_UPDATE ||
     e.event_type = EventType.LAST_TRADE || e.event_type = EventType.TICK_SIZE_CHANGE)

/-- Mutable state of `PriceThresholdParser` (`src/parsers/threshold.py`):
rules indexed by token, last trigger time per `(token_id, threshold)`
key, and last observed price per token. -/
structure ParserState where
  rules_by_token : AssocMap String (List ThresholdRule)
  last_trigger : AssocMap (String × ℚ) ℚ
  last_price : AssocMap String ℚ
deriving DecidableEq

/-- `PriceThresholdParser._get_price`: mid-price when both sides of the
book are present, else last trade price, else best ask, else best bid. -/
def get_price (e : MarketEvent) : Option ℚ :=
  match e.best_bid, e.best_ask, e.last_price with
  | some b, some a, _ => some ((b + a) / 2)
  | _, _, some lp => some lp
  | _, some a, _ => some a
  | some b, _, _ => some b
  | _, _, _ => none

/-- The `crossed` computation of `PriceThresholdParser._evaluate_rule`:
edge-triggered crossing detection, with a plain one-sided check on the
first observation of a token.  The Python chained comparisons
`prev_price <= rule.threshold < current_price` and
`prev_price >= rule.threshold > current_price` are spelled out as
conjunctions. -/
def crossing (rule : ThresholdRule) (current_price : ℚ) (prev_price : Option ℚ) : Bool :=
  match rule.comparison, prev_price with
  | Comparison.above, some pp =>
      decide (pp ≤ rule.threshold) && decide (rule.threshold < current_price)
  | Comparison.above, none => decide (current_price > rule.threshold)
  | Comparison.below, some pp =>
      decide (pp ≥ rule.threshold) && decide (rule.threshold > current_price)
  | Comparison.below, none => decide (current_price < rule.threshold)

/-- `PriceThresholdParser._evaluate_rule`: cooldown gate (missing last
trigger defaults to `0.0`), then the crossing test, then signal
construction and last-trigger recording.  The Python template
substitution for the signal's `reason` is not modelled (the signal
carries the raw template); no claim depends on the reason text. -/
def evaluate_rule (lastTrigger : AssocMap (String × ℚ) ℚ) (rule : ThresholdRule)
    (current_price : ℚ) (prev_price : Option ℚ) (now : ℚ) :
    Option TradeSignal × AssocMap (String × ℚ) ℚ :=
  let rule_key : String × ℚ := (rule.token_id, rule.threshold)
  let lt : ℚ := (lastTrigger.lookup rule_key).getD 0
  if now - lt < rule.cooldown_seconds then (none, lastTrigger)
  else
    if crossing rule current_price prev_price then
      (some { token_id := rule.token_id, side := rule.trigger_side,
              size_usdc := rule.size_usdc, reason := rule.reason_template },
       lastTrigger.insert rule_key now)
    else (none, lastTrigger)

/-- The rule loop of `PriceThresholdParser.evaluate`: evaluate rules in
install order, return the first signal (together with the rule that
fired) and the updated last-trigger map. -/
def eval_rules_loop (lastTrigger : AssocMap (String × ℚ) ℚ) (rules : List ThresholdRule)
    (current_price : ℚ) (prev_price : Option ℚ) (now : ℚ) :
    Option (ThresholdRule × TradeSignal) × AssocMap (String × ℚ) ℚ :=
  match rules with
  | [] => (none, lastTrigger)
  | r :: rest =>
    match evaluate_rule lastTrigger r current_price prev_price now with
    | (some s, lt') => (some (r, s), lt')
    | (none, lt') => eval_rules_loop lt' rest current_price prev_price now

/-- `PriceThresholdParser.evaluate`, instrumented to also report which
rule fired: gate on `is_market_event`, look up the token's rules, extract
the price, read the previous price, advance the last-price map, then run
the rule loop.  `now` stands for the wall clock `time()`. -/
def evaluate_full (st : ParserState) (e : MarketEvent) (now : ℚ) :
    Option (ThresholdRule × TradeSignal) × ParserState :=
  if !e.is_market_event then (none, st)
  else
    match e.token_id with
    | none => (none, st)
    | some token_id =>
      let rules := (st.rules_by_token.lookup token_id).getD []
      if rules = [] then (none, st)
      else
        match get_price e with
        | none => (none, st)
        | some current_price =>
          let prev_price := st.last_price.lookup token_id
          let st1 : ParserState :=
            { st with last_price := st.last_price.insert token_id current_price }
          let res := eval_rules_loop st1.last_trigger rules current_price prev_price now
          (res.1, { st1 with last_trigger := res.2 })

/-- `PriceThresholdParser.evaluate` proper: drop the fired rule. -/
def evaluate (st : ParserState) (e : MarketEvent) (now : ℚ) :
    Option TradeSignal × ParserState :=
  let res := evaluate_full st e now
  (res.1.map Prod.snd, res.2)

/-- `PriceThresholdParser.add_rule`: append the rule to its token's
bucket (creating the bucket when absent). -/
def add_rule (st : ParserState) (rule : ThresholdRule) : ParserState :=
  { st with
    rules_by_token := st.rules_by_token.insert rule.token_id
      (((st.rules_by_token.lookup rule.token_id).getD []) ++ [rule]) }

/-- `PriceThresholdParser.has_rule_for_token`: key presence in the
rules-by-token index. -/
def has_rule_for_token (st : ParserState) (token_id : String) : Bool :=
  (st.rules_by_token.lookup token_id).isSome

/-- The key under which `PriceThresholdParser` records trigger times:
`(rule.token_id, rule.threshold)`. -/
def rule_key (r : ThresholdRule) : String × ℚ := (r.token_id, r.threshold)

/-- A firing: the rule that fired, the emitted signal, and the clock
value at the firing step. -/
abbrev Firing : Type := ThresholdRule × TradeSignal × ℚ

/-- Run the parser over a sequence of `(event, clock)` pairs, collecting
every firing in order. -/
def run_trace (st : ParserState) : List (MarketEvent × ℚ) → ParserState × List Firing
  | [] => (st, [])
  | (e, t) :: rest =>
    let step := evaluate_full st e t
    let tail := run_trace step.2 rest
    (tail.1,
     (match step.1 with
      | some (r, s) => [(r, s, t)]
      | none => []) ++ tail.2)

theorem evaluate_rule_none_snd (lt : AssocMap (String × ℚ) ℚ) (r : ThresholdRule)
    (cur : ℚ) (prev : Option ℚ) (now : ℚ)
    (h : (evaluate_rule lt r cur prev now).1 = none) :
    (evaluate_rule lt r cur prev now).2 = lt := by
  unfold evaluate_rule at h ⊢
  by_cases h1 : now - ((lt.lookup (r.token_id, r.threshold)).getD 0) < r.cooldown_seconds
  · simp [h1]
  · by_cases h2 : crossing r cur prev = true
    · simp [h1, h2] at h
    · simp [h1, h2]

theorem evaluate_rule_some (lt : AssocMap (String × ℚ) ℚ) (r : ThresholdRule)
    (cur : ℚ) (prev : Option ℚ) (now : ℚ) (s : TradeSignal)
    (h : (evaluate_rule lt r cur prev now).1 = some s) :
    r.cooldown_seconds ≤ now - ((lt.lookup (rule_key r)).getD 0) ∧
    (evaluate_rule lt r cur prev now).2 = lt.insert (rule_key r) now := by
  unfold evaluate_rule at h ⊢
  by_cases h1 : now - ((lt.lookup (r.token_id, r.threshold)).getD 0) < r.cooldown_seconds
  · simp [h1] at h
  · by_cases h2 : crossing r cur prev = true
    · exact ⟨not_lt.mp (by simpa [rule_key] using h1), by simp [h1, h2, rule_key]⟩
    · simp [h1, h2] at h

theorem eval_rules_loop_some (cur : ℚ) (prev : Option ℚ) (now : ℚ) :
    ∀ (rules : List ThresholdRule) (lt lt' : AssocMap (String × ℚ) ℚ)
      (r : ThresholdRule) (s : TradeSignal),
      eval_rules_loop lt rules cur prev now = (some (r, s), lt') →
      r.cooldown_seconds ≤ now - ((lt.lookup (rule_key r)).getD 0) ∧
      lt' = lt.insert (rule_key r) now := by
  intro rules
  induction rules with
  | nil => intro lt lt' r s h; simp [eval_rules_loop] at h
  | cons hd tl ih =>
    intro lt lt' r s h
    rw [eval_rules_loop] at h
    rcases hq : evaluate_rule lt hd cur prev now with ⟨o, m⟩
    rw [hq] at h
    cases o with
    | some s0 =>
      simp only [Prod.mk.injEq, Option.some.injEq] at h
      obtain ⟨⟨hr, hs⟩, hm⟩ := h
      subst hr; subst hm
      have h1 : (evaluate_rule lt hd cur prev now).1 = some s0 := by rw [hq]
      obtain ⟨hcd, hins⟩ := evaluate_rule_some lt hd cur prev now s0 h1
      rw [hq] at hins
      exact ⟨hcd, hins⟩
    | none =>
      have hm : m = lt := by
        have := evaluate_rule_none_snd lt hd cur prev now (by rw [hq])
        rw [hq] at this; exact this
      rw [hm] at h
      exact ih lt lt' r s h

theorem eval_rules_loop_none (cur : ℚ) (prev : Option ℚ) (now : ℚ) :
    ∀ (rules : List ThresholdRule) (lt lt' : AssocMap (String × ℚ) ℚ),
      eval_rules_loop lt rules cur prev now = (none, lt') → lt' = lt := by
  intro rules
  induction rules with
  | nil => intro lt lt' h; simpa [eval_rules_loop] using h.symm
  | cons hd tl ih =>
    intro lt lt' h
    rw [eval_rules_loop] at h
    rcases hq : evaluate_rule lt hd cur prev now with ⟨o, m⟩
    rw [hq] at h
    cases o with
    | some s0 => simp at h
    | none =>
      have hm : m = lt := by
        have := evaluate_rule_none_snd lt hd cur prev now (by rw [hq])
        rw [hq] at this; exact this
      rw [hm] at h
      exact ih lt lt' h

theorem evaluate_full_some (st : ParserState) (e : MarketEvent) (t : ℚ)
    (r : ThresholdRule) (s : TradeSignal) (st' : ParserState)
    (h : evaluate_full st e t = (some (r, s), st')) :
    r.cooldown_seconds ≤ t - ((st.last_trigger.lookup (rule_key r)).getD 0) ∧
    st'.last_trigger = st.last_trigger.insert (rule_key r) t := by
  unfold evaluate_full at h
  by_cases hm : e.is_market_event = true
  · rcases htok : e.token_id with _ | token
    · rw [htok] at h; simp [hm] at h
    · rw [htok] at h
      simp only [hm, Bool.not_true, Bool.false_eq_true, if_false] at h
      by_cases hr : (st.rules_by_token.lookup token).getD [] = []
      · rw [if_pos hr] at h; simp at h
      · rw [if_neg hr] at h
        rcases hp : get_price e with _ | cp
        · rw [hp] at h; simp at h
        · rw [hp] at h
          simp only at h
          rcases hq : eval_rules_loop st.last_trigger
              ((st.rules_by_token.lookup token).getD []) cp
              (st.last_price.lookup token) t with ⟨o, m⟩
          rw [hq] at h
          simp only [Prod.mk.injEq] at h
          obtain ⟨ho, hst⟩ := h
          obtain ⟨hcd, hins⟩ := eval_rules_loop_some cp (st.last_price.lookup token) t
            ((st.rules_by_token.lookup token).getD []) st.last_trigger m r s
            (by rw [hq, ho])
          constructor
          · exact hcd
          · rw [← hst]; exact hins
  · simp [hm] at h

theorem evaluate_full_none (st : ParserState) (e : MarketEvent) (t : ℚ)
    (st' : ParserState) (h : evaluate_full st e t = (none, st')) :
    st'.last_trigger = st.last_trigger := by
  unfold evaluate_full at h
  by_cases hm : e.is_market_event = true
  · rcases htok : e.token_id with _ | token
    · rw [htok] at h
      simp only [hm, Bool.not_true, Bool.false_eq_true, if_false] at h
      simp only [Prod.mk.injEq] at h
      rw [← h.2]
    · rw [htok] at h
      simp only [hm, Bool.not_true, Bool.false_eq_true, if_false] at h
      by_cases hr : (st.rules_by_token.lookup token).getD [] = []
      · rw [if_pos hr] at h
        simp only [Prod.mk.injEq] at h
        rw [← h.2]
      · rw [if_neg hr] at h
        rcases hp : get_price e with _ | cp
        · rw [hp] at h
          simp only [Prod.mk.injEq] at h
          rw [← h.2]
        · rw [hp] at h
          simp only at h
          rcases hq : eval_rules_loop st.last_trigger
              ((st.rules_by_token.lookup token).getD []) cp
              (st.last_price.lookup token) t with ⟨o, m⟩
          rw [hq] at h
          simp only [Prod.mk.injEq] at h
          obtain ⟨ho, hst⟩ := h
          have hml : m = st.last_trigger :=
            eval_rules_loop_none cp (st.last_price.lookup token) t
              ((st.rules_by_token.lookup token).getD []) st.last_trigger m
              (by rw [hq, ho])
          rw [← hst, hml]
  · simp only [Bool.not_eq_true] at hm
    simp only [hm, Bool.not_false, if_true, Prod.mk.injEq] at h
    rw [← h.2]

theorem run_trace_gap_aux (k : String × ℚ) :
    ∀ (evs : List (MarketEvent × ℚ)) (st : ParserState) (tprev : ℚ),
      st.last_trigger.lookup k = some tprev →
      (∀ hd ∈ ((run_trace st evs).2.filter (fun x => decide (rule_key x.1 = k))).head?,
         hd.1.cooldown_seconds ≤ hd.2.2 - tprev) ∧
      ((run_trace st evs).2.filter (fun x => decide (rule_key x.1 = k))).Chain'
        (fun a b => b.1.cooldown_seconds ≤ b.2.2 - a.2.2) := by
  intro evs
  induction evs with
  | nil => intro st tprev hlk; simp [run_trace]
  | cons ev rest ih =>
    intro st tprev hlk
    obtain ⟨e, t⟩ := ev
    rcases hstep : evaluate_full st e t with ⟨o, st1⟩
    have hrt : run_trace st ((e, t) :: rest) =
        ((run_trace st1 rest).1,
         (match o with | some (r, s) => [(r, s, t)] | none => []) ++
           (run_trace st1 rest).2) := by
      simp only [run_trace, hstep]
      cases o <;> rfl
    cases o with
    | none =>
      have hlt1 : st1.last_trigger = st.last_trigger := evaluate_full_none st e t st1 hstep
      rw [hrt]
      simp only [List.nil_append]
      exact ih st1 tprev (by rw [hlt1]; exact hlk)
    | some rs =>
      obtain ⟨r, s⟩ := rs
      obtain ⟨hcd, hins⟩ := evaluate_full_some st e t r s st1 hstep
      by_cases hk : rule_key r = k
      · have hlt1 : st1.last_trigger.lookup k = some t := by
          rw [hins, ← hk]
          exact AssocMap.lookup_insert_self _ _ _
        obtain ⟨ihhead, ihchain⟩ := ih st1 t hlt1
        rw [hrt]
        simp only [List.cons_append, List.nil_append]
        rw [List.filter_cons_of_pos (by simp [hk])]
        constructor
        · intro hd hhd
          rw [List.head?_cons, Option.mem_def, Option.some.injEq] at hhd
          subst hhd
          rw [hk, hlk] at hcd
          simpa using hcd
        · rw [List.chain'_cons']
          exact ⟨fun y hy => ihhead y hy, ihchain⟩
      · have hlt1 : st1.last_trigger.lookup k = some tprev := by
          rw [hins, AssocMap.lookup_insert_ne _ _ _ _ (fun hkk => hk hkk.symm)]
          exact hlk
        rw [hrt]
        simp only [List.cons_append, List.nil_append]
        rw [List.filter_cons_of_neg (by simp [hk])]
        exact ih st1 tprev hlt1

theorem run_trace_chain (k : String × ℚ) :
    ∀ (evs : List (MarketEvent × ℚ)) (st : ParserState),
      ((run_trace st evs).2.filter (fun x => decide (rule_key x.1 = k))).Chain'
        (fun a b => b.1.cooldown_seconds ≤ b.2.2 - a.2.2) := by
  intro evs
  induction evs with
  | nil => intro st; simp [run_trace]
  | cons ev rest ih =>
    intro st
    obtain ⟨e, t⟩ := ev
    rcases hstep : evaluate_full st e t with ⟨o, st1⟩
    have hrt : run_trace st ((e, t) :: rest) =
        ((run_trace st1 rest).1,
         (match o with | some (r, s) => [(r, s, t)] | none => []) ++
           (run_trace st1 rest).2) := by
      simp only [run_trace, hstep]
      cases o <;> rfl
    cases o with
    | none =>
      rw [hrt]
      simp only [List.nil_append]
      exact ih st1
    | some rs =>
      obtain ⟨r, s⟩ := rs
      obtain ⟨hcd, hins⟩ := evaluate_full_some st e t r s st1 hstep
      by_cases hk : rule_key r = k
      · have hlt1 : st1.last_trigger.lookup k = some t := by
          rw [hins, ← hk]
          exact AssocMap.lookup_insert_self _ _ _
        obtain ⟨ihhead, ihchain⟩ := run_trace_gap_aux k rest st1 t hlt1
        rw [hrt]
        simp only [List.cons_append, List.nil_append]
        rw [List.filter_cons_of_pos (by simp [hk])]
        rw [List.chain'_cons']
        exact ⟨fun y hy => ihhead y hy, ihchain⟩
      · rw [hrt]
        simp only [List.cons_append, List.nil_append]
        rw [List.filter_cons_of_neg (by simp [hk])]
        exact ih st1

/-- C8: cooldown monotonicity.  Part (1): along any run of the parser,
consecutive firings sharing a `(token_id, threshold)` key are separated
by at least the cooldown of the later firing's rule (the inter-signal
gap is `≥ cooldown_seconds`).  Part (2): a crossing arriving within the
cooldown window is suppressed (`_evaluate_rule` returns no signal and
leaves the trigger map unchanged).  Part (3): the previous price is
advanced by every evaluated priced event for a token with rules,
suppressed or not. -/
theorem claim_C8 :
    (∀ (st : ParserState) (evs : List (MarketEvent × ℚ)) (k : String × ℚ),
       ((run_trace st evs).2.filter (fun x => decide (rule_key x.1 = k))).Chain'
         (fun a b => b.1.cooldown_seconds ≤ b.2.2 - a.2.2)) ∧
    (∀ (lt : AssocMap (String × ℚ) ℚ) (rule : ThresholdRule) (cur : ℚ)
       (prev : Option ℚ) (now : ℚ),
       now - ((lt.lookup (rule_key rule)).getD 0) < rule.cooldown_seconds →
       evaluate_rule lt rule cur prev now = (none, lt)) ∧
    (∀ (st : ParserState) (e : MarketEvent) (now : ℚ) (token : String) (p : ℚ),
       e.is_market_event = true → e.token_id = some token →
       (st.rules_by_token.lookup token).getD [] ≠ [] → get_price e = some p →
       ((evaluate_full st e now).2).last_price.lookup token = some p) := by
  refine ⟨fun st evs k => run_trace_chain k evs st, ?_, ?_⟩
  · intro lt rule cur prev now hcd
    unfold evaluate_rule
    rw [if_pos (by simpa [rule_key] using hcd)]
  · intro st e now token p hm htok hr hp
    unfold evaluate_full
    rw [htok]
    simp only [hm, Bool.not_true, Bool.false_eq_true, if_false]
    rw [if_neg hr, hp]
    simp only
    exact AssocMap.lookup_insert_self _ _ _

/-- C8, witness: part (2) applied with a rule of cooldown `60` whose key
was last triggered at clock `100`, re-evaluated at clock `130`
(elapsed `30 < 60`): suppressed; and part (3) applied to a concrete
priced event: the previous price is advanced. -/
theorem claim_C8_witness :
    ((130 : ℚ) - ((AssocMap.lookup [(("tok", (1 : ℚ)/2), (100 : ℚ))]
        ("tok", (1 : ℚ)/2)).getD 0) <
      (⟨"tok", Side.BUY, 1/2, Comparison.below, 10, "r", 60⟩ :
        ThresholdRule).cooldown_seconds) ∧
    (evaluate_rule [(("tok", (1 : ℚ)/2), (100 : ℚ))]
        ⟨"tok", Side.BUY, 1/2, Comparison.below, 10, "r", 60⟩
        ((1 : ℚ)/3) (some ((3 : ℚ)/5)) 130 =
      (none, [(("tok", (1 : ℚ)/2), (100 : ℚ))])) ∧
    ((evaluate_full
        ⟨[("tok", [⟨"tok", Side.BUY, 1/2, Comparison.below, 10, "r", 60⟩])], [], []⟩
        ⟨EventType.PRICE_CHANGE, some "tok", none, none, some ((2 : ℚ)/5)⟩
        130).2).last_price.lookup "tok" = some ((2 : ℚ)/5) := by
  refine ⟨?_, ?_, ?_⟩
  · norm_num [AssocMap.lookup, rule_key]
  · exact claim_C8.2.1 _ _ _ _ _ (by norm_num [AssocMap.lookup, rule_key])
  · exact claim_C8.2.2 _ _ _ _ _ (by simp [MarketEvent.is_market_event]) rfl
      (by simp [AssocMap.lookup]) (by simp [get_price])

/-- C1, counterexample.  The claim states that with a previous
observation `p_prev`, a `below` rule fires iff
`p_prev ≤ threshold ∧ p < threshold`.  Take a rule with threshold `1/2`
and cooldown `0`, previous price `1/4`, current price `1/3`, clock `1`:
the claim's firing condition holds (`1/4 ≤ 1/2` and `1/3 < 1/2`) and the
cooldown permits, yet `_evaluate_rule` produces no signal — the code
requires the previous price to be at or above the threshold
(`prev_price >= rule.threshold > current_price`). -/
theorem claim_C1_counterexample :
    ((1 : ℚ)/4 ≤ (1 : ℚ)/2 ∧ (1 : ℚ)/3 < (1 : ℚ)/2) ∧
    (⟨"tok", Side.BUY, 1/2, Comparison.below, 10, "r", 0⟩ :
        ThresholdRule).cooldown_seconds ≤
      1 - ((AssocMap.lookup [] ("tok", (1 : ℚ)/2)).getD 0) ∧
    (evaluate_rule [] ⟨"tok", Side.BUY, 1/2, Comparison.below, 10, "r", 0⟩
        ((1 : ℚ)/3) (some ((1 : ℚ)/4)) 1).1 = none := by
  refine ⟨⟨by norm_num, by norm_num⟩, by norm_num [AssocMap.lookup], ?_⟩
  norm_num [evaluate_rule, crossing, AssocMap.lookup]

/-- C1, amended.  When the cooldown permits, `_evaluate_rule` fires iff:
with a previous observation, a `below` rule requires
`p_prev ≥ threshold ∧ p < threshold` and an `above` rule requires
`p_prev ≤ threshold ∧ p > threshold`; with no previous observation,
`below` fires iff `p < threshold` and `above` fires iff `p > threshold`
(the claim had the two `p_prev` inequalities swapped). -/
theorem claim_C1_amended (lastTrigger : AssocMap (String × ℚ) ℚ) (rule : ThresholdRule)
    (current_price : ℚ) (prev_price : Option ℚ) (now : ℚ)
    (hcd : rule.cooldown_seconds ≤
      now - ((lastTrigger.lookup (rule.token_id, rule.threshold)).getD 0)) :
    (evaluate_rule lastTrigger rule current_price prev_price now).1.isSome = true ↔
      (match rule.comparison, prev_price with
       | Comparison.below, some pp =>
           rule.threshold ≤ pp ∧ current_price < rule.threshold
       | Comparison.below, none => current_price < rule.threshold
       | Comparison.above, some pp =>
           pp ≤ rule.threshold ∧ rule.threshold < current_price
       | Comparison.above, none => rule.threshold < current_price) := by
  have hnot :
      ¬ (now - ((lastTrigger.lookup (rule.token_id, rule.threshold)).getD 0) <
        rule.cooldown_seconds) := not_lt.mpr hcd
  rcases hc : rule.comparison <;> rcases prev_price with _ | pp <;>
    simp [evaluate_rule, crossing, hnot, hc] <;>
    (split_ifs with hx <;> simp [hx])

/-- C1, witness for the amended theorem: a `below` rule with threshold
`1/2`, previous price `3/5`, current price `2/5` at clock `1` — the
cooldown hypothesis holds and the instantiated equivalence follows. -/
theorem claim_C1_witness :
    ((⟨"tok", Side.BUY, 1/2, Comparison.below, 10, "r", 0⟩ :
        ThresholdRule).cooldown_seconds ≤
      1 - ((AssocMap.lookup [] ("tok", (1 : ℚ)/2)).getD 0)) ∧
    ((evaluate_rule [] ⟨"tok", Side.BUY, 1/2, Comparison.below, 10, "r", 0⟩
        ((2 : ℚ)/5) (some ((3 : ℚ)/5)) 1).1.isSome = true ↔
      ((1 : ℚ)/2 ≤ (3 : ℚ)/5 ∧ (2 : ℚ)/5 < (1 : ℚ)/2)) :=
  ⟨by norm_num [AssocMap.lookup],
   claim_C1_amended [] ⟨"tok", Side.BUY, 1/2, Comparison.below, 10, "r", 0⟩
     ((2 : ℚ)/5) (some ((3 : ℚ)/5)) 1 (by norm_num [AssocMap.lookup])⟩

/-- Position direction (`src/models.py`, `PositionSide`). -/
inductive PositionSide
  | LONG
  | SHORT
  | FLAT
deriving DecidableEq

/-- Open position (`src/models.py`, `Position`). -/
structure Position where
  token_id : String
  side : PositionSide
  quantity : ℚ
  avg_entry_price : ℚ
  current_price : ℚ
  opened_at : ℚ
deriving DecidableEq

/-- Order execution status (`src/models.py`, `OrderStatus`). -/
inductive OrderStatus
  | PENDING
  | FILLED
  | PARTIAL
  | CANCELLED
  | REJECTED
  | FAILED
deriving DecidableEq

/-- Execution result (`src/models.py`, `ExecutionResult`); the execution
timestamp field is not modelled, no claim depends on it. -/
structure ExecutionResult where
  order_id : String
  status : OrderStatus
  filled_price : ℚ
  filled_size : ℚ
  fees_paid : ℚ
  error_message : Option String
deriving DecidableEq

/-- Order (`src/models.py`, `Order`); only the fields read by
`PortfolioManager` are modelled. -/
structure Order where
  token_id : String
  side : Side
  quantity : ℚ
  limit_price : Option ℚ
deriving DecidableEq

/-- State of `PortfolioManager` (`src/managers/portfolio.py`) together
with the rows of the backing `positions` table of `DatabaseManager`
(`src/persistence/database.py`), called `store` here: `upsert_position`
inserts or replaces the row of a token, `delete_position` removes it. -/
structure PortfolioState where
  cash_balance : ℚ
  positions : AssocMap String Position
  store : AssocMap String Position
deriving DecidableEq

/-- Risk limits of `PortfolioManager` (`max_position_size`,
`max_positions`; defaults 500.0 and 10). -/
structure PortfolioConfig where
  max_position_size : ℚ
  max_positions : Nat
deriving DecidableEq

/-- `PortfolioManager.check_order`: cash sufficiency at the limit price
(worst case `1.0` if unset) and the position-count cap for BUYs; position
sufficiency for SELLs.  Rejection reasons are modelled by fixed strings
(the Python messages interpolate amounts; no claim depends on the
text). -/
def check_order (cfg : PortfolioConfig) (st : PortfolioState) (o : Order) :
    Bool × String :=
  match o.side with
  | Side.BUY =>
    let price := o.limit_price.getD 1
    let cost := o.quantity * price
    if cost > st.cash_balance then (false, "insufficient cash")
    else if !(st.positions.contains o.token_id) &&
        decide (cfg.max_positions ≤ st.positions.size) then
      (false, "max positions reached")
    else (true, "")
  | Side.SELL =>
    match st.positions.lookup o.token_id with
    | none => (false, "insufficient position for sell")
    | some pos =>
      if pos.quantity < o.quantity then (false, "insufficient position for sell")
      else (true, "")

/-- `PortfolioManager._handle_buy_fill`: create the position or fold the
fill into it at the quantity-weighted average entry price, then write the
new position to the in-memory map and to the store (`upsert_position`).
`now` stands for the wall clock `time()`. -/
def handle_buy_fill (st : PortfolioState) (token_id : String)
    (quantity price now : ℚ) : PortfolioState :=
  let new_pos : Position :=
    match st.positions.lookup token_id with
    | some old_pos =>
      let new_quantity := old_pos.quantity + quantity
      let total_cost := old_pos.quantity * old_pos.avg_entry_price + quantity * price
      { token_id := token_id, side := PositionSide.LONG, quantity := new_quantity,
        avg_entry_price := total_cost / new_quantity, current_price := price,
        opened_at := old_pos.opened_at }
    | none =>
      { token_id := token_id, side := PositionSide.LONG, quantity := quantity,
        avg_entry_price := price, current_price := price, opened_at := now }
  { st with positions := st.positions.insert token_id new_pos,
            store := st.store.insert token_id new_pos }

/-- `PortfolioManager._handle_sell_fill`: unknown token is a no-op;
otherwise reduce the quantity, deleting the position from the map and the
store when the new quantity is `≤ 0`, else writing the reduced position
(entry price preserved, current price set to the fill price) to both. -/
def handle_sell_fill (st : PortfolioState) (token_id : String)
    (quantity price : ℚ) : PortfolioState :=
  match st.positions.lookup token_id with
  | none => st
  | some old_pos =>
    let new_quantity := old_pos.quantity - quantity
    if new_quantity ≤ 0 then
      { st with positions := st.positions.erase token_id,
                store := st.store.erase token_id }
    else
      let new_pos : Position :=
        { token_id := token_id, side := old_pos.side, quantity := new_quantity,
          avg_entry_price := old_pos.avg_entry_price, current_price := price,
          opened_at := old_pos.opened_at }
      { st with positions := st.positions.insert token_id new_pos,
                store := st.store.insert token_id new_pos }

/-- `PortfolioManager.on_fill`: fall back to the order quantity when the
result reports no filled size, dispatch on the side, then adjust cash
(BUY subtracts cost plus fees, SELL adds proceeds minus fees). -/
def on_fill (st : PortfolioState) (o : Order) (result : ExecutionResult)
    (now : ℚ) : PortfolioState :=
  let filled_price := result.filled_price
  let filled_size := if result.filled_size > 0 then result.filled_size else o.quantity
  let st1 :=
    match o.side with
    | Side.BUY => handle_buy_fill st o.token_id filled_size filled_price now
    | Side.SELL => handle_sell_fill st o.token_id filled_size filled_price
  match o.side with
  | Side.BUY =>
    { st1 with cash_balance := st1.cash_balance - (filled_size * filled_price + result.fees_paid) }
  | Side.SELL =>
    { st1 with cash_balance := st1.cash_balance + (filled_size * filled_price - result.fees_paid) }

/-- `PortfolioManager.on_price_update`: unknown token is a no-op;
otherwise replace the in-memory position with a copy carrying the new
current price.  (No store write appears here in the source.) -/
def on_price_update (st : PortfolioState) (token_id : String) (price : ℚ) :
    PortfolioState :=
  match st.positions.lookup token_id with
  | none => st
  | some old_pos =>
    let new_pos : Position :=
      { token_id := old_pos.token_id, side := old_pos.side,
        quantity := old_pos.quantity, avg_entry_price := old_pos.avg_entry_price,
        current_price := price, opened_at := old_pos.opened_at }
    { st with positions := st.positions.insert token_id new_pos }

/-- C2, counterexample.  Holding a position in token `"t"` with current
price `1/2` (present in the ledger and in the store), `on_price_update`
to price `3/5` replaces the in-memory position with a copy carrying the
new current price, but the store still holds the old position: the
mutation is not persisted in the same logical step. -/
theorem claim_C2_counterexample :
    (on_price_update
        ⟨100, [("t", ⟨"t", PositionSide.LONG, 10, 2/5, 1/2, 0⟩)],
         [("t", ⟨"t", PositionSide.LONG, 10, 2/5, 1/2, 0⟩)]⟩
        "t" ((3 : ℚ)/5)).positions.lookup "t" =
      some ⟨"t", PositionSide.LONG, 10, 2/5, 3/5, 0⟩ ∧
    (on_price_update
        ⟨100, [("t", ⟨"t", PositionSide.LONG, 10, 2/5, 1/2, 0⟩)],
         [("t", ⟨"t", PositionSide.LONG, 10, 2/5, 1/2, 0⟩)]⟩
        "t" ((3 : ℚ)/5)).store.lookup "t" =
      some ⟨"t", PositionSide.LONG, 10, 2/5, 1/2, 0⟩ ∧
    (⟨"t", PositionSide.LONG, 10, 2/5, 3/5, 0⟩ : Position) ≠
      ⟨"t", PositionSide.LONG, 10, 2/5, 1/2, 0⟩ := by
  refine ⟨?_, ?_, ?_⟩
  · simp [on_price_update, AssocMap.lookup, AssocMap.insert]
  · simp [on_price_update, AssocMap.lookup]
  · simp only [ne_eq, Position.mk.injEq, not_and]
    intro _ _ _ _ h
    norm_num at h

/-- C2, amended.  The fill handlers persist in the same logical step:
`_handle_buy_fill` writes the same new position to the ledger and the
store, and `_handle_sell_fill` on a held token writes (or deletes) the
same position in both.  `on_price_update`, however, mutates only the
in-memory ledger: the store and the cash balance are left unchanged, so
the mark-to-market mutation is not persisted. -/
theorem claim_C2_amended :
    (∀ (st : PortfolioState) (tok : String) (q p now : ℚ),
       (handle_buy_fill st tok q p now).store.lookup tok =
         (handle_buy_fill st tok q p now).positions.lookup tok) ∧
    (∀ (st : PortfolioState) (tok : String) (q p : ℚ) (pos : Position),
       st.positions.lookup tok = some pos →
       (handle_sell_fill st tok q p).store.lookup tok =
         (handle_sell_fill st tok q p).positions.lookup tok) ∧
    (∀ (st : PortfolioState) (tok : String) (price : ℚ),
       (on_price_update st tok price).store = st.store ∧
       (on_price_update st tok price).cash_balance = st.cash_balance) ∧
    (∀ (st : PortfolioState) (tok : String) (price : ℚ) (pos : Position),
       st.positions.lookup tok = some pos →
       (on_price_update st tok price).positions.lookup tok =
         some { pos with current_price := price }) := by
  refine ⟨?_, ?_, ?_, ?_⟩
  · intro st tok q p now
    unfold handle_buy_fill
    rcases st.positions.lookup tok with _ | old <;>
      simp [AssocMap.lookup_insert_self]
  · intro st tok q p pos h
    unfold handle_sell_fill
    rw [h]
    by_cases hq : pos.quantity - q ≤ 0
    · simp only [hq, if_true]
      rw [AssocMap.lookup_erase_self, AssocMap.lookup_erase_self]
    · simp only [hq, if_false]
      rw [AssocMap.lookup_insert_self, AssocMap.lookup_insert_self]
  · intro st tok price
    unfold on_price_update
    rcases st.positions.lookup tok with _ | old <;> simp
  · intro st tok price pos h
    unfold on_price_update
    rw [h]
    simp only
    rw [AssocMap.lookup_insert_self]

/-- C2, witness for the amended theorem: a concrete buy fill is written
identically to ledger and store, and a concrete `on_price_update` leaves
the store untouched while the ledger carries the new current price. -/
theorem claim_C2_witness :
    ((handle_buy_fill ⟨100, [], []⟩ "t" 10 ((2 : ℚ)/5) 7).store.lookup "t" =
      (handle_buy_fill ⟨100, [], []⟩ "t" 10 ((2 : ℚ)/5) 7).positions.lookup "t") ∧
    ((on_price_update
        ⟨100, [("t", ⟨"t", PositionSide.LONG, 10, 2/5, 1/2, 0⟩)],
         [("t", ⟨"t", PositionSide.LONG, 10, 2/5, 1/2, 0⟩)]⟩
        "t" ((3 : ℚ)/5)).positions.lookup "t" =
      some { (⟨"t", PositionSide.LONG, 10, 2/5, 1/2, 0⟩ : Position) with
             current_price := (3 : ℚ)/5 }) :=
  ⟨claim_C2_amended.1 ⟨100, [], []⟩ "t" 10 ((2 : ℚ)/5) 7,
   claim_C2_amended.2.2.2
     ⟨100, [("t", ⟨"t", PositionSide.LONG, 10, 2/5, 1/2, 0⟩)],
      [("t", ⟨"t", PositionSide.LONG, 10, 2/5, 1/2, 0⟩)]⟩
     "t" ((3 : ℚ)/5) ⟨"t", PositionSide.LONG, 10, 2/5, 1/2, 0⟩
     (by simp [AssocMap.lookup])⟩

/-- C5, counterexample.  The claim says a partial SELL updates only the
quantity.  Selling `4` of a `10`-share position at fill price `7/10`
when the stored current price was `2/5` also rewrites `current_price`
to the fill price `7/10 ≠ 2/5`, so more than the quantity changes. -/
theorem claim_C5_counterexample :
    (handle_sell_fill
        ⟨100, [("t", ⟨"t", PositionSide.LONG, 10, 2/5, 2/5, 0⟩)],
         [("t", ⟨"t", PositionSide.LONG, 10, 2/5, 2/5, 0⟩)]⟩
        "t" 4 ((7 : ℚ)/10)).positions.lookup "t" =
      some ⟨"t", PositionSide.LONG, 6, 2/5, 7/10, 0⟩ ∧
    ((7 : ℚ)/10) ≠ ((2 : ℚ)/5) := by
  constructor
  · simp [handle_sell_fill, AssocMap.lookup, AssocMap.insert]
    norm_num
  · norm_num

/-- C5, amended.  For a SELL fill on a held token the new quantity is
`old.quantity − filled_size`; if it is `≤ 0` the position is deleted
from the ledger and from the store (so it is absent from
`GetAllPositions`); otherwise the quantity is reduced and
`current_price` is set to the fill price, while `avg_entry_price` and
`opened_at` are preserved. -/
theorem claim_C5_amended (st : PortfolioState) (tok : String) (q p : ℚ)
    (pos : Position) (h : st.positions.lookup tok = some pos) :
    (pos.quantity - q ≤ 0 →
      (handle_sell_fill st tok q p).positions.lookup tok = none ∧
      (handle_sell_fill st tok q p).store.lookup tok = none) ∧
    (0 < pos.quantity - q →
      (handle_sell_fill st tok q p).positions.lookup tok =
        some ⟨tok, pos.side, pos.quantity - q, pos.avg_entry_price, p, pos.opened_at⟩ ∧
      (handle_sell_fill st tok q p).store.lookup tok =
        some ⟨tok, pos.side, pos.quantity - q, pos.avg_entry_price, p, pos.opened_at⟩) := by
  constructor
  · intro hq
    unfold handle_sell_fill
    rw [h]
    simp only [hq, if_true]
    exact ⟨AssocMap.lookup_erase_self _ _, AssocMap.lookup_erase_self _ _⟩
  · intro hq
    unfold handle_sell_fill
    rw [h]
    simp only [not_le.mpr hq, if_false]
    exact ⟨AssocMap.lookup_insert_self _ _ _, AssocMap.lookup_insert_self _ _ _⟩

/-- C5, witness for the amended theorem: selling `4` of `10` leaves a
`6`-share position with preserved entry price, and selling all `10`
deletes the position from ledger and store. -/
theorem claim_C5_witness :
    ((0 : ℚ) < (10 : ℚ) - 4 →
      (handle_sell_fill
          ⟨100, [("t", ⟨"t", PositionSide.LONG, 10, 2/5, 2/5, 0⟩)],
           [("t", ⟨"t", PositionSide.LONG, 10, 2/5, 2/5, 0⟩)]⟩
          "t" 4 ((7 : ℚ)/10)).positions.lookup "t" =
        some ⟨"t", PositionSide.LONG, (10 : ℚ) - 4, 2/5, 7/10, 0⟩ ∧
      (handle_sell_fill
          ⟨100, [("t", ⟨"t", PositionSide.LONG, 10, 2/5, 2/5, 0⟩)],
           [("t", ⟨"t", PositionSide.LONG, 10, 2/5, 2/5, 0⟩)]⟩
          "t" 4 ((7 : ℚ)/10)).store.lookup "t" =
        some ⟨"t", PositionSide.LONG, (10 : ℚ) - 4, 2/5, 7/10, 0⟩) ∧
    ((10 : ℚ) - 10 ≤ 0 →
      (handle_sell_fill
          ⟨100, [("t", ⟨"t", PositionSide.LONG, 10, 2/5, 2/5, 0⟩)],
           [("t", ⟨"t", PositionSide.LONG, 10, 2/5, 2/5, 0⟩)]⟩
          "t" 10 ((7 : ℚ)/10)).positions.lookup "t" = none ∧
      (handle_sell_fill
          ⟨100, [("t", ⟨"t", PositionSide.LONG, 10, 2/5, 2/5, 0⟩)],
           [("t", ⟨"t", PositionSide.LONG, 10, 2/5, 2/5, 0⟩)]⟩
          "t" 10 ((7 : ℚ)/10)).store.lookup "t" = none) :=
  ⟨(claim_C5_amended _ "t" 4 ((7 : ℚ)/10) ⟨"t", PositionSide.LONG, 10, 2/5, 2/5, 0⟩
      (by simp [AssocMap.lookup])).2,
   (claim_C5_amended _ "t" 10 ((7 : ℚ)/10) ⟨"t", PositionSide.LONG, 10, 2/5, 2/5, 0⟩
      (by simp [AssocMap.lookup])).1⟩

/-- C10: a SELL fill for a token with no position leaves the ledger and
the store unchanged (`_handle_sell_fill` returns early), yet `on_fill`
still credits the cash balance with
`filled_size · filled_price − fees_paid`, where `filled_size` falls back
to the order quantity when the result reports `0`. -/
theorem claim_C10 (st : PortfolioState) (o : Order) (result : ExecutionResult)
    (now : ℚ) (hside : o.side = Side.SELL)
    (hnone : st.positions.lookup o.token_id = none) :
    (on_fill st o result now).positions = st.positions ∧
    (on_fill st o result now).store = st.store ∧
    (on_fill st o result now).cash_balance = st.cash_balance +
      ((if result.filled_size > 0 then result.filled_size else o.quantity) *
        result.filled_price - result.fees_paid) := by
  unfold on_fill
  rw [hside]
  simp [handle_sell_fill, hnone]

/-- C10, witness: an empty portfolio receives a SELL fill of `8` shares
at price `1/2` with fees `1`; positions and store stay empty and cash
rises by `8 · 1/2 − 1`. -/
theorem claim_C10_witness :
    (on_fill ⟨100, [], []⟩ ⟨"t", Side.SELL, 8, none⟩
        ⟨"oid", OrderStatus.FILLED, 1/2, 8, 1, none⟩ 0).positions = [] ∧
    (on_fill ⟨100, [], []⟩ ⟨"t", Side.SELL, 8, none⟩
        ⟨"oid", OrderStatus.FILLED, 1/2, 8, 1, none⟩ 0).store = [] ∧
    (on_fill ⟨100, [], []⟩ ⟨"t", Side.SELL, 8, none⟩
        ⟨"oid", OrderStatus.FILLED, 1/2, 8, 1, none⟩ 0).cash_balance =
      100 + (((if (8 : ℚ) > 0 then (8 : ℚ) else 8) * (1/2)) - 1) :=
  claim_C10 ⟨100, [], []⟩ ⟨"t", Side.SELL, 8, none⟩
    ⟨"oid", OrderStatus.FILLED, 1/2, 8, 1, none⟩ 0 rfl rfl

/-- A sequence of BUY fills `(quantity, price, clock)` for one token,
applied through `_handle_buy_fill` with no interleaved SELL. -/
def apply_buy_fills (tok : String) : PortfolioState → List (ℚ × ℚ × ℚ) → PortfolioState
  | st, [] => st
  | st, (q, p, t) :: rest => apply_buy_fills tok (handle_buy_fill st tok q p t) rest

theorem apply_buy_fills_existing (tok : String) :
    ∀ (fills : List (ℚ × ℚ × ℚ)) (st : PortfolioState) (pos : Position),
      st.positions.lookup tok = some pos → 0 < pos.quantity →
      (∀ f ∈ fills, 0 < f.1) →
      ∃ pos', (apply_buy_fills tok st fills).positions.lookup tok = some pos' ∧
        pos'.quantity = pos.quantity + (fills.map fun f => f.1).sum ∧
        pos'.avg_entry_price =
          (pos.quantity * pos.avg_entry_price + (fills.map fun f => f.1 * f.2.1).sum) /
            (pos.quantity + (fills.map fun f => f.1).sum) ∧
        pos'.current_price = (fills.map fun f => f.2.1).getLastD pos.current_price ∧
        pos'.opened_at = pos.opened_at := by
  intro fills
  induction fills with
  | nil =>
    intro st pos h hq _
    refine ⟨pos, h, by simp, ?_, by simp, rfl⟩
    simp only [List.map_nil, List.sum_nil, add_zero]
    rw [mul_div_cancel_left₀ _ (ne_of_gt hq)]
  | cons f rest ih =>
    intro st pos h hq hall
    obtain ⟨q, p, t⟩ := f
    have hq0 : (0 : ℚ) < q := hall (q, p, t) (List.mem_cons_self _ _)
    have hstep : (handle_buy_fill st tok q p t).positions.lookup tok =
        some ⟨tok, PositionSide.LONG, pos.quantity + q,
          (pos.quantity * pos.avg_entry_price + q * p) / (pos.quantity + q),
          p, pos.opened_at⟩ := by
      unfold handle_buy_fill
      rw [h]
      exact AssocMap.lookup_insert_self _ _ _
    have hsum : (0 : ℚ) < pos.quantity + q := add_pos hq hq0
    obtain ⟨pos', hlk, hqty, havg, hcur, hop⟩ :=
      ih (handle_buy_fill st tok q p t) _ hstep hsum
        (fun g hg => hall g (List.mem_cons_of_mem _ hg))
    refine ⟨pos', ?_, ?_, ?_, ?_, ?_⟩
    · simpa [apply_buy_fills] using hlk
    · rw [hqty]; simp; ring
    · rw [havg]
      simp only

      have hcancel : (pos.quantity + q) *
          ((pos.quantity * pos.avg_entry_price + q * p) / (pos.quantity + q)) =
          pos.quantity * pos.avg_entry_price + q * p := by
        rw [mul_comm, div_mul_cancel₀ _ (ne_of_gt hsum)]
      rw [hcancel]
      simp only [List.map_cons, List.sum_cons]
      rw [add_assoc, add_assoc]
    · rw [hcur]
      simp only [List.map_cons, List.getLastD_cons]
    · rw [hop]

/-- C4: starting from no position, a sequence of BUY fills `(q_i, p_i)`
with no interleaved SELL yields a position with quantity `Σ q_i`,
`avg_entry_price` within `1e-9` of `Σ q_i·p_i / Σ q_i` (they are in fact
exactly equal in exact arithmetic), `current_price` equal to the last
fill price, and `opened_at` taken from the first fill. -/
theorem claim_C4 (st : PortfolioState) (tok : String)
    (fills : List (ℚ × ℚ × ℚ)) (hnone : st.positions.lookup tok = none)
    (hne : fills ≠ []) (hpos : ∀ f ∈ fills, 0 < f.1) :
    ∃ pos', (apply_buy_fills tok st fills).positions.lookup tok = some pos' ∧
      pos'.quantity = (fills.map fun f => f.1).sum ∧
      |pos'.avg_entry_price -
        (fills.map fun f => f.1 * f.2.1).sum / (fills.map fun f => f.1).sum| ≤
        1 / 10 ^ 9 ∧
      pos'.current_price = (fills.map fun f => f.2.1).getLastD 0 ∧
      pos'.opened_at = (fills.map fun f => f.2.2).headD 0 := by
  rcases fills with _ | ⟨⟨q, p, t⟩, rest⟩
  · exact absurd rfl hne
  · have hq0 : (0 : ℚ) < q := hpos (q, p, t) (List.mem_cons_self _ _)
    have hstep : (handle_buy_fill st tok q p t).positions.lookup tok =
        some ⟨tok, PositionSide.LONG, q, p, p, t⟩ := by
      unfold handle_buy_fill
      rw [hnone]
      exact AssocMap.lookup_insert_self _ _ _
    obtain ⟨pos', hlk, hqty, havg, hcur, hop⟩ :=
      apply_buy_fills_existing tok rest (handle_buy_fill st tok q p t) _ hstep hq0
        (fun g hg => hpos g (List.mem_cons_of_mem _ hg))
    refine ⟨pos', by simpa [apply_buy_fills] using hlk, ?_, ?_, ?_, ?_⟩
    · rw [hqty]; simp
    · rw [havg]
      norm_num
    · rw [hcur]
      simp only [List.map_cons, List.getLastD_cons]
    · rw [hop]
      simp

/-- C4, witness: two BUY fills `(100, 2/5)` then `(100, 3/5)` starting
from an empty book produce a `200`-share position whose entry price is
within `1e-9` of the VWAP `1/2`, current price `3/5`, opened at the
first fill's clock. -/
theorem claim_C4_witness :
    ∃ pos', (apply_buy_fills "t" ⟨10000, [], []⟩
        [(100, (2 : ℚ)/5, 3), (100, (3 : ℚ)/5, 4)]).positions.lookup "t" =
        some pos' ∧
      pos'.quantity = ([(100, (2 : ℚ)/5, 3), (100, (3 : ℚ)/5, 4)].map
        fun f => f.1).sum ∧
      |pos'.avg_entry_price -
        ([(100, (2 : ℚ)/5, 3), (100, (3 : ℚ)/5, 4)].map fun f => f.1 * f.2.1).sum /
          ([(100, (2 : ℚ)/5, 3), (100, (3 : ℚ)/5, 4)].map fun f => f.1).sum| ≤
        1 / 10 ^ 9 ∧
      pos'.current_price = ([(100, (2 : ℚ)/5, 3), (100, (3 : ℚ)/5, 4)].map
        fun f => f.2.1).getLastD 0 ∧
      pos'.opened_at = ([(100, (2 : ℚ)/5, 3), (100, (3 : ℚ)/5, 4)].map
        fun f => f.2.2).headD 0 :=
  claim_C4 ⟨10000, [], []⟩ "t" [(100, (2 : ℚ)/5, 3), (100, (3 : ℚ)/5, 4)]
    rfl (by simp) (by norm_num)

/-- The executor's error kinds (`src/exceptions.py`), as raised by
`PolymarketExecutor` (`src/executors/polymarket.py`). -/
inductive ExecErrorKind
  | authentication
  | position_size
  | order_book
  | price_validation
  | rate_limit
  | execution
deriving DecidableEq

/-- An outbound network interaction of the executor: fetching the order
book or posting an order to the venue. -/
inductive NetAction
  | fetch_book (token_id : String)
  | post_order
deriving DecidableEq

/-- Configuration of `PolymarketExecutor`: the position-size cap
(default 1000) and the process-wide `dry_run` flag. -/
structure ExecutorConfig where
  max_position_size : ℚ
  dry_run : Bool
deriving DecidableEq

/-- One side of the venue order book, as raw price fields: each entry is
the `price` value of a level, `none` when missing or unparseable. -/
structure OrderBook where
  bids : List (Option ℚ)
  asks : List (Option ℚ)
deriving DecidableEq

/-- Raw order-submission response fields read by
`_parse_order_response`: `orderID` and its `id` fallback, the vendor
status string, and the optional numeric fields. -/
structure OrderResponse where
  orderID : Option String
  idAlt : Option String
  status : String
  price : Option ℚ
  size : Option ℚ
  fee : Option ℚ
  errMsg : Option String
  message : Option String
deriving DecidableEq

/-- External world of a live execution: the order book fetched for the
signal's token (`none` when the fetch raises) and the venue's response
to the submission (`none` when the submission raises). -/
structure LiveEnv where
  book : Option OrderBook
  response : Option OrderResponse
deriving DecidableEq

/-- `PolymarketExecutor._safe_parse_price`: keep strictly positive
numbers, drop everything else. -/
def safe_parse_price (v : Option ℚ) : Option ℚ :=
  match v with
  | none => none
  | some p => if p > 0 then some p else none

/-- Python's falsy `or` on optional strings: keep the first operand only
when it is present and non-empty. -/
def or_string (a b : Option String) : Option String :=
  match a with
  | some s => if s = "" then b else some s
  | none => b

/-- `PolymarketExecutor._validate_spread`: skip when either side is
non-positive, reject when the relative spread exceeds 50%. -/
def validate_spread (best_bid best_ask : ℚ) : Except ExecErrorKind Unit :=
  if best_bid ≤ 0 ∨ best_ask ≤ 0 then Except.ok ()
  else if (best_ask - best_bid) / best_ask > 1/2 then
    Except.error ExecErrorKind.price_validation
  else Except.ok ()

/-- `PolymarketExecutor._validate_price`: positive and within
`[0.01, 0.99]`. -/
def validate_price (price : ℚ) : Except ExecErrorKind Unit :=
  if price ≤ 0 then Except.error ExecErrorKind.price_validation
  else if price < 1/100 then Except.error ExecErrorKind.price_validation
  else if price > 99/100 then Except.error ExecErrorKind.price_validation
  else Except.ok ()

/-- `PolymarketExecutor._calculate_price`: for a BUY require a parseable
best ask and return `min(best_ask · 1.01, 0.99)`; for a SELL require a
parseable best bid and return `max(best_bid · 0.99, 0.01)`; validate the
spread when the opposite side is present and parseable. -/
def calculate_price (book : Option OrderBook) (side : Side) : Except ExecErrorKind ℚ :=
  match book with
  | none => Except.error ExecErrorKind.order_book
  | some ob =>
    match side with
    | Side.BUY =>
      match ob.asks with
      | [] => Except.error ExecErrorKind.order_book
      | a0 :: _ =>
        match safe_parse_price a0 with
        | none => Except.error ExecErrorKind.order_book
        | some best_ask =>
          let spread_check : Except ExecErrorKind Unit :=
            match ob.bids with
            | [] => Except.ok ()
            | b0 :: _ =>
              match safe_parse_price b0 with
              | none => Except.ok ()
              | some best_bid => validate_spread best_bid best_ask
          match spread_check with
          | Except.error e => Except.error e
          | Except.ok _ => Except.ok (min (best_ask * (101/100)) (99/100))
    | Side.SELL =>
      match ob.bids with
      | [] => Except.error ExecErrorKind.order_book
      | b0 :: _ =>
        match safe_parse_price b0 with
        | none => Except.error ExecErrorKind.order_book
        | some best_bid =>
          let spread_check : Except ExecErrorKind Unit :=
            match ob.asks with
            | [] => Except.ok ()
            | a0 :: _ =>
              match safe_parse_price a0 with
              | none => Except.ok ()
              | some best_ask => validate_spread best_bid best_ask
          match spread_check with
          | Except.error e => Except.error e
          | Except.ok _ => Except.ok (max (best_bid * (99/100)) (1/100))

/-- `PolymarketExecutor._parse_order_status`: uppercase vendor status
mapped to the order-status enum, defaulting to pending. -/
def parse_order_status (s : String) : OrderStatus :=
  let u := s.toUpper
  if u = "FILLED" then OrderStatus.FILLED
  else if u = "MATCHED" then OrderStatus.FILLED
  else if u = "PARTIAL" then OrderStatus.PARTIAL
  else if u = "CANCELLED" then OrderStatus.CANCELLED
  else if u = "REJECTED" then OrderStatus.REJECTED
  else OrderStatus.PENDING

/-- `PolymarketExecutor._parse_order_response`: safe extraction with
fallbacks — order id from `orderID`, then `id`, then a fresh
`unknown_`-prefixed id from the uuid entropy; price falling back to the
submitted price; size falling back to the submitted size for filled
orders; an error message for terminal failure statuses. -/
def parse_order_response (resp : OrderResponse) (expected_price expected_size : ℚ)
    (entropy : List Char) : ExecutionResult :=
  let order_id := (or_string resp.orderID (or_string resp.idAlt
    (some ("unknown_" ++ String.mk (entropy.take 8))))).getD ""
  let status := parse_order_status resp.status
  let filled_price := (safe_parse_price resp.price).getD expected_price
  let filled_size :=
    match safe_parse_price resp.size with
    | some s => s
    | none => if status = OrderStatus.FILLED then expected_size else 0
  let fees_paid := (safe_parse_price resp.fee).getD 0
  let error_message :=
    if status = OrderStatus.REJECTED ∨ status = OrderStatus.FAILED ∨
        status = OrderStatus.CANCELLED then
      some ((or_string resp.errMsg (or_string resp.message
        (some "Unknown error"))).getD "")
    else none
  { order_id := order_id, status := status, filled_price := filled_price,
    filled_size := filled_size, fees_paid := fees_paid,
    error_message := error_message }

/-- Lowercase-hex character test (the alphabet of Python
`uuid.uuid4().hex`). -/
def is_hex_char (c : Char) : Bool :=
  c.isDigit || (decide ('a' ≤ c) && decide (c ≤ 'f'))

/-- `PolymarketExecutor._execute_dry_run`: a synthetic filled result at
price `0.50` with no fees and an id made of the `dry_run_` tag followed
by the first 8 characters of the uuid entropy.  No network action is
taken. -/
def execute_dry_run (signal : TradeSignal) (entropy : List Char) : ExecutionResult :=
  { order_id := "dry_run_" ++ String.mk (entropy.take 8),
    status := OrderStatus.FILLED,
    filled_price := 1/2,
    filled_size := signal.size_usdc / (1/2),
    fees_paid := 0,
    error_message := none }

/-- `PolymarketExecutor._execute_live`: fetch the book and derive the
aggressive price, validate it, derive the share quantity, submit, and
normalize the response; submission exceptions become `execution`
errors.  The rate-limit throttle only sleeps and is not modelled; the
client is assumed initialized. -/
def execute_live (env : LiveEnv) (signal : TradeSignal) (entropy : List Char) :
    Except ExecErrorKind ExecutionResult × List NetAction :=
  match calculate_price env.book signal.side with
  | Except.error e => (Except.error e, [NetAction.fetch_book signal.token_id])
  | Except.ok price =>
    match validate_price price with
    | Except.error e => (Except.error e, [NetAction.fetch_book signal.token_id])
    | Except.ok _ =>
      let size := signal.size_usdc / price
      match env.response with
      | none =>
        (Except.error ExecErrorKind.execution,
         [NetAction.fetch_book signal.token_id, NetAction.post_order])
      | some resp =>
        (Except.ok (parse_order_response resp price size entropy),
         [NetAction.fetch_book signal.token_id, NetAction.post_order])

/-- `PolymarketExecutor.execute`: the position-size guard runs first
(in dry-run and live alike), then the dry-run short-circuit, then live
execution. -/
def execute (cfg : ExecutorConfig) (env : LiveEnv) (signal : TradeSignal)
    (entropy : List Char) : Except ExecErrorKind ExecutionResult × List NetAction :=
  if signal.size_usdc > cfg.max_position_size then
    (Except.error ExecErrorKind.position_size, [])
  else if cfg.dry_run then (Except.ok (execute_dry_run signal entropy), [])
  else execute_live env signal entropy

theorem validate_spread_ne_ps (best_bid best_ask : ℚ) :
    validate_spread best_bid best_ask ≠
      Except.error ExecErrorKind.position_size := by
  unfold validate_spread
  split_ifs <;> simp

theorem calculate_price_ne_ps (book : Option OrderBook) (side : Side) :
    calculate_price book side ≠ Except.error ExecErrorKind.position_size := by
  rcases book with _ | ⟨bids, asks⟩
  · simp [calculate_price]
  · rcases side
    case BUY =>
      rcases asks with _ | ⟨a0, arest⟩
      · simp [calculate_price]
      · rcases hpa : safe_parse_price a0 with _ | best_ask
        · simp [calculate_price, hpa]
        · rcases bids with _ | ⟨b0, brest⟩
          · simp [calculate_price, hpa]
          · rcases hpb : safe_parse_price b0 with _ | best_bid
            · simp [calculate_price, hpa, hpb]
            · rcases hvs : validate_spread best_bid best_ask with e | u
              · have hne : e ≠ ExecErrorKind.position_size := by
                  intro he
                  exact validate_spread_ne_ps best_bid best_ask (by rw [hvs, he])
                simp [calculate_price, hpa, hpb, hvs, hne]
              · simp [calculate_price, hpa, hpb, hvs]
    case SELL =>
      rcases bids with _ | ⟨b0, brest⟩
      · simp [calculate_price]
      · rcases hpb : safe_parse_price b0 with _ | best_bid
        · simp [calculate_price, hpb]
        · rcases asks with _ | ⟨a0, arest⟩
          · simp [calculate_price, hpb]
          · rcases hpa : safe_parse_price a0 with _ | best_ask
            · simp [calculate_price, hpb, hpa]
            · rcases hvs : validate_spread best_bid best_ask with e | u
              · have hne : e ≠ ExecErrorKind.position_size := by
                  intro he
                  exact validate_spread_ne_ps best_bid best_ask (by rw [hvs, he])
                simp [calculate_price, hpb, hpa, hvs, hne]
              · simp [calculate_price, hpb, hpa, hvs]

theorem execute_live_ne_ps (env : LiveEnv) (signal : TradeSignal)
    (entropy : List Char) :
    (execute_live env signal entropy).1 ≠ Except.error ExecErrorKind.position_size := by
  unfold execute_live
  rcases hcp : calculate_price env.book signal.side with e | price
  · have hne := calculate_price_ne_ps env.book signal.side
    rw [hcp] at hne
    simpa using fun he => hne (by rw [he])
  · rcases hvp : validate_price price with e | u
    · have he : e = ExecErrorKind.price_validation := by
        unfold validate_price at hvp
        split_ifs at hvp <;> simp_all
      subst he
      simp [hvp]
    · rcases env.response with _ | resp <;> simp [hvp]

/-- C6: the position-size guard.  A signal with
`size_usdc > max_position_size` fails with a `position_size` error and
no network action (so no order is submitted) in dry-run and live mode
alike, because the guard precedes the dry-run short-circuit; a signal
with `size_usdc ≤ max_position_size` never produces a `position_size`
error. -/
theorem claim_C6 :
    (∀ (cfg : ExecutorConfig) (env : LiveEnv) (signal : TradeSignal)
       (entropy : List Char),
       cfg.max_position_size < signal.size_usdc →
       execute cfg env signal entropy =
         (Except.error ExecErrorKind.position_size, [])) ∧
    (∀ (cfg : ExecutorConfig) (env : LiveEnv) (signal : TradeSignal)
       (entropy : List Char),
       signal.size_usdc ≤ cfg.max_position_size →
       (execute cfg env signal entropy).1 ≠
         Except.error ExecErrorKind.position_size) := by
  constructor
  · intro cfg env signal entropy h
    unfold execute
    rw [if_pos h]
  · intro cfg env signal entropy h
    unfold execute
    rw [if_neg (not_lt.mpr h)]
    by_cases hd : cfg.dry_run = true
    · simp [hd]
    · simp only [hd, if_false]
      exact execute_live_ne_ps env signal entropy

/-- C6, witness: with the default cap 1000, a 5000-USDC signal fails
with `position_size` and an empty network trace even in dry-run mode,
while a 5-USDC signal in live mode never sees a `position_size` error. -/
theorem claim_C6_witness :
    (execute ⟨1000, true⟩ ⟨none, none⟩ ⟨"t", Side.BUY, 5000, "r"⟩ [] =
      (Except.error ExecErrorKind.position_size, [])) ∧
    ((execute ⟨1000, false⟩ ⟨none, none⟩ ⟨"t", Side.BUY, 5, "r"⟩ []).1 ≠
      Except.error ExecErrorKind.position_size) :=
  ⟨claim_C6.1 ⟨1000, true⟩ ⟨none, none⟩ ⟨"t", Side.BUY, 5000, "r"⟩ []
     (by norm_num),
   claim_C6.2 ⟨1000, false⟩ ⟨none, none⟩ ⟨"t", Side.BUY, 5, "r"⟩ []
     (by norm_num)⟩

/-- C7: the dry-run short-circuit.  A signal passing the size guard in
dry-run mode yields a synthetic filled result with price `0.50`, size
`size_usdc / 0.50`, zero fees, and an order id equal to `dry_run_`
followed by the first 8 characters of the uuid hex entropy (8 hex
characters); the network trace is empty. -/
theorem claim_C7 (cfg : ExecutorConfig) (env : LiveEnv) (signal : TradeSignal)
    (entropy : List Char) (hsz : signal.size_usdc ≤ cfg.max_position_size)
    (hd : cfg.dry_run = true) (hlen : 8 ≤ entropy.length)
    (hhex : ∀ c ∈ entropy, is_hex_char c = true) :
    execute cfg env signal entropy =
      (Except.ok ⟨"dry_run_" ++ String.mk (entropy.take 8), OrderStatus.FILLED,
        1/2, signal.size_usdc / (1/2), 0, none⟩, []) ∧
    (entropy.take 8).length = 8 ∧
    (∀ c ∈ entropy.take 8, is_hex_char c = true) := by
  refine ⟨?_, ?_, ?_⟩
  · unfold execute
    rw [if_neg (not_lt.mpr hsz), if_pos hd]
    rfl
  · rw [List.length_take]
    exact Nat.min_eq_left hlen
  · exact fun c hc => hhex c (List.take_subset _ _ hc)

/-- C7, witness: a 5-USDC dry-run signal with entropy `abcdef12`
produces the synthetic result with order id `dry_run_abcdef12` and no
network action; the 8 retained characters are hex. -/
theorem claim_C7_witness :
    (execute ⟨1000, true⟩ ⟨none, none⟩ ⟨"t", Side.BUY, 5, "r"⟩
        ['a', 'b', 'c', 'd', 'e', 'f', '1', '2'] =
      (Except.ok ⟨"dry_run_" ++
          String.mk (['a', 'b', 'c', 'd', 'e', 'f', '1', '2'].take 8),
        OrderStatus.FILLED, 1/2, (5 : ℚ) / (1/2), 0, none⟩, [])) ∧
    ((['a', 'b', 'c', 'd', 'e', 'f', '1', '2'] : List Char).take 8).length = 8 ∧
    (∀ c ∈ (['a', 'b', 'c', 'd', 'e', 'f', '1', '2'] : List Char).take 8,
      is_hex_char c = true) :=
  claim_C7 ⟨1000, true⟩ ⟨none, none⟩ ⟨"t", Side.BUY, 5, "r"⟩
    ['a', 'b', 'c', 'd', 'e', 'f', '1', '2']
    (by norm_num) rfl (by decide) (by decide)

/-- Observable calls made by the orchestrator while handling events
(`src/orchestrator.py`): callback emissions, portfolio validation, and
executor invocations, in program order. -/
inductive OrchAction
  | signal_generated (s : TradeSignal)
  | check_order_call (o : Order) (verdict : Bool)
  | execute_call (s : TradeSignal)
  | execute_order_call (o : Order)
  | on_fill_call (o : Order)
  | trade_executed
  | error_handled
deriving DecidableEq

/-- `Orchestrator._process_with_parsers` for one event: each parser's
output for the event is given in registration order; for every signal
the orchestrator emits `signal_generated`, invokes the executor, and on
success emits `trade_executed` (journal writes are omitted from the
trace).  The `portfolio` argument is carried because the orchestrator
holds one, but this code path never consults it — exactly as in the
source, which calls `self._executor.execute(signal)` directly. -/
def process_with_parsers (portfolio : Option (PortfolioConfig × PortfolioState)) :
    List (Option TradeSignal) → (TradeSignal → Except ExecErrorKind ExecutionResult) →
    List OrchAction
  | [], _ => []
  | none :: rest, f => process_with_parsers portfolio rest f
  | some sig :: rest, f =>
    OrchAction.signal_generated sig :: OrchAction.execute_call sig ::
      ((match f sig with
        | Except.ok _ => [OrchAction.trade_executed]
        | Except.error _ => [OrchAction.error_handled]) ++
       process_with_parsers portfolio rest f)

/-- `Orchestrator._execute_order` (the strategy path): when a portfolio
is attached, `check_order` gates the order — on reject the order is
dropped after the check; on accept the executor runs, and on success the
portfolio is notified and `trade_executed` emitted. -/
def execute_order_actions (portfolio : Option (PortfolioConfig × PortfolioState))
    (o : Order) (outcome : Except ExecErrorKind ExecutionResult) : List OrchAction :=
  match portfolio with
  | some (cfg, pst) =>
    if (check_order cfg pst o).1 then
      OrchAction.check_order_call o true :: OrchAction.execute_order_call o ::
        (match outcome with
         | Except.ok _ => [OrchAction.on_fill_call o, OrchAction.trade_executed]
         | Except.error _ => [OrchAction.error_handled])
    else [OrchAction.check_order_call o false]
  | none =>
    OrchAction.execute_order_call o ::
      (match outcome with
       | Except.ok _ => [OrchAction.trade_executed]
       | Except.error _ => [OrchAction.error_handled])

/-- Recognizer for portfolio-validation calls in an orchestrator trace. -/
def is_check_order_call : OrchAction → Bool
  | OrchAction.check_order_call _ _ => true
  | _ => false

/-- C3, counterexample.  A portfolio with zero cash is attached, so
`check_order` on the order built from the signal (50 USDC BUY) rejects;
yet the parser path still invokes the executor on the signal, and its
trace contains no `check_order` call at all: in `_process_with_parsers`
the executor is called unconditionally, without portfolio gating. -/
theorem claim_C3_counterexample :
    (check_order ⟨500, 10⟩ ⟨0, [], []⟩ ⟨"t", Side.BUY, 50, none⟩).1 = false ∧
    OrchAction.execute_call ⟨"t", Side.BUY, 50, "r"⟩ ∈
      process_with_parsers (some (⟨500, 10⟩, ⟨0, [], []⟩))
        [some ⟨"t", Side.BUY, 50, "r"⟩]
        (fun _ => Except.error ExecErrorKind.execution) ∧
    ∀ a ∈ process_with_parsers (some (⟨500, 10⟩, ⟨0, [], []⟩))
        [some ⟨"t", Side.BUY, 50, "r"⟩]
        (fun _ => Except.error ExecErrorKind.execution),
      is_check_order_call a = false := by
  refine ⟨?_, ?_, ?_⟩
  · simp [check_order]
  · simp [process_with_parsers]
  · intro a ha
    simp [process_with_parsers] at ha
    rcases ha with rfl | rfl | rfl <;> rfl

/-- C3, amended.  The `check_order` gate belongs to the strategy path
(`_execute_order`): with a portfolio attached, a rejected order produces
only the rejected check in the trace and the executor is never invoked
for it, while an accepted order is checked first and executed
immediately after.  The parser path (`_process_with_parsers`) invokes
the executor without any `check_order` call. -/
theorem claim_C3_amended :
    (∀ (cfg : PortfolioConfig) (pst : PortfolioState) (o : Order)
       (outcome : Except ExecErrorKind ExecutionResult),
       ((check_order cfg pst o).1 = false →
         execute_order_actions (some (cfg, pst)) o outcome =
           [OrchAction.check_order_call o false] ∧
         ∀ a ∈ execute_order_actions (some (cfg, pst)) o outcome,
           a ≠ OrchAction.execute_order_call o) ∧
       ((check_order cfg pst o).1 = true →
         ∃ tail, execute_order_actions (some (cfg, pst)) o outcome =
           OrchAction.check_order_call o true ::
             OrchAction.execute_order_call o :: tail)) ∧
    (∀ (portfolio : Option (PortfolioConfig × PortfolioState))
       (outputs : List (Option TradeSignal))
       (f : TradeSignal → Except ExecErrorKind ExecutionResult),
       ∀ a ∈ process_with_parsers portfolio outputs f,
         is_check_order_call a = false) := by
  constructor
  · intro cfg pst o outcome
    constructor
    · intro hrej
      constructor
      · simp [execute_order_actions, hrej]
      · intro a ha
        simp [execute_order_actions, hrej] at ha
        subst ha
        simp
    · intro hacc
      refine ⟨(match outcome with
        | Except.ok _ => [OrchAction.on_fill_call o, OrchAction.trade_executed]
        | Except.error _ => [OrchAction.error_handled]), ?_⟩
      simp [execute_order_actions, hacc]
  · intro portfolio outputs f
    induction outputs with
    | nil => intro a ha; simp [process_with_parsers] at ha
    | cons hd tl ih =>
      intro a ha
      cases hd with
      | none =>
        exact ih a (by simpa [process_with_parsers] using ha)
      | some sig =>
        rcases hf : f sig with e | r <;>
          simp only [process_with_parsers, hf] at ha <;>
          simp at ha <;>
          rcases ha with rfl | rfl | rfl | ha <;>
          first
          | rfl
          | exact ih a ha

/-- C3, witness for the amended theorem: with zero cash the strategy
path records the rejected check and never reaches the executor; with
ample cash the check precedes the executor call. -/
theorem claim_C3_witness :
    (execute_order_actions (some (⟨500, 10⟩, ⟨0, [], []⟩))
        ⟨"t", Side.BUY, 50, none⟩ (Except.error ExecErrorKind.execution) =
      [OrchAction.check_order_call ⟨"t", Side.BUY, 50, none⟩ false] ∧
      ∀ a ∈ execute_order_actions (some (⟨500, 10⟩, ⟨0, [], []⟩))
          ⟨"t", Side.BUY, 50, none⟩ (Except.error ExecErrorKind.execution),
        a ≠ OrchAction.execute_order_call ⟨"t", Side.BUY, 50, none⟩) ∧
    (∃ tail, execute_order_actions (some (⟨500, 10⟩, ⟨1000, [], []⟩))
        ⟨"t", Side.BUY, 50, none⟩ (Except.error ExecErrorKind.execution) =
      OrchAction.check_order_call ⟨"t", Side.BUY, 50, none⟩ true ::
        OrchAction.execute_order_call ⟨"t", Side.BUY, 50, none⟩ :: tail) :=
  ⟨(claim_C3_amended.1 ⟨500, 10⟩ ⟨0, [], []⟩ ⟨"t", Side.BUY, 50, none⟩
      (Except.error ExecErrorKind.execution)).1
     (by simp [check_order]),
   (claim_C3_amended.1 ⟨500, 10⟩ ⟨1000, [], []⟩ ⟨"t", Side.BUY, 50, none⟩
      (Except.error ExecErrorKind.execution)).2
     (by norm_num [check_order, AssocMap.contains, AssocMap.size, AssocMap.lookup])⟩

/-- Discovered market (`src/discovery/models.py`, `DiscoveryResult`);
only the fields read by `SubscriptionManager` are modelled. -/
structure DiscoveryResult where
  token_id : String
  title : String
deriving DecidableEq

/-- Rule template of a discovery strategy (`src/discovery/models.py`,
`RuleTemplate`). -/
structure RuleTemplate where
  trigger_side : String
  threshold : ℚ
  comparison : Comparison
  size_usdc : ℚ
  cooldown_seconds : ℚ
deriving DecidableEq

/-- Discovery strategy (`src/discovery/models.py`, `DiscoveryStrategy`);
its `criteria` are not modelled separately — the external catalog below
is a function of the whole strategy. -/
structure DiscoveryStrategy where
  name : String
  max_markets : Nat
  rule_template : RuleTemplate
deriving DecidableEq

/-- Joint state touched by `SubscriptionManager`
(`src/managers/subscription.py`): the ingester's subscribed-token set,
the parser's rule state, and the manager's global subscription
counter. -/
structure SubState where
  subscribed : List String
  parser : ParserState
  subscribed_count : Nat
deriving DecidableEq

/-- The ingester's `subscribe` on one token
(`PolymarketIngester.subscribe` updates a Python set): add the token if
absent. -/
def subscribe_token (l : List String) (t : String) : List String :=
  if t ∈ l then l else l ++ [t]

/-- `SubscriptionManager._is_duplicate`: token already subscribed in the
ingester or already carrying a parser rule. -/
def is_duplicate (st : SubState) (token_id : String) : Bool :=
  decide (token_id ∈ st.subscribed) || has_rule_for_token st.parser token_id

/-- `SubscriptionManager._create_rule`: build the `ThresholdRule` from
the template, resolving the trigger side; the interpolated reason
template is modelled as a plain concatenation (no claim depends on its
text). -/
def create_rule (result : DiscoveryResult) (strategy : DiscoveryStrategy) :
    ThresholdRule :=
  let template := strategy.rule_template
  { token_id := result.token_id,
    trigger_side := if template.trigger_side.toUpper = "BUY" then Side.BUY
                    else Side.SELL,
    threshold := template.threshold,
    comparison := template.comparison,
    size_usdc := template.size_usdc,
    reason_template := strategy.name ++ " " ++ result.title,
    cooldown_seconds := template.cooldown_seconds }

/-- `SubscriptionManager._add_market`: subscribe the token in the
ingester and install the generated rule in the parser.  External
subscription failures are not modelled (the dedup claim assumes the same
successful external interactions on both runs). -/
def add_market (st : SubState) (result : DiscoveryResult)
    (strategy : DiscoveryStrategy) : SubState :=
  { st with subscribed := subscribe_token st.subscribed result.token_id,
            parser := add_rule st.parser (create_rule result strategy) }

/-- The result loop of `SubscriptionManager._execute_strategy`: stop
when the global limit is reached, skip duplicates, otherwise add the
market and bump the counter. -/
def add_loop (global_limit : Nat) (strategy : DiscoveryStrategy) :
    List DiscoveryResult → SubState → Nat → Nat × SubState
  | [], st, added => (added, st)
  | r :: rest, st, added =>
    if global_limit ≤ st.subscribed_count then (added, st)
    else if is_duplicate st r.token_id then
      add_loop global_limit strategy rest st added
    else
      add_loop global_limit strategy rest
        { add_market st r strategy with
          subscribed_count := st.subscribed_count + 1 }
        (added + 1)

/-- `SubscriptionManager._execute_strategy`: cap the per-strategy limit
by the remaining global budget, return `0` when nothing can be added,
otherwise discover up to `limit` results and run the loop.  The
deterministic external catalog is a function from strategy to ordered
result list, and `discover(criteria, limit)` is its `limit`-prefix. -/
def execute_strategy (global_limit : Nat)
    (catalog : DiscoveryStrategy → List DiscoveryResult)
    (st : SubState) (strategy : DiscoveryStrategy) : Nat × SubState :=
  let remaining := global_limit - st.subscribed_count
  let limit := min strategy.max_markets remaining
  if limit = 0 then (0, st)
  else add_loop global_limit strategy ((catalog strategy).take limit) st 0

/-- `SubscriptionManager.execute_strategies`: run the strategies in
order, breaking as soon as the global limit is reached, summing the
markets added. -/
def execute_strategies (global_limit : Nat)
    (catalog : DiscoveryStrategy → List DiscoveryResult) (st : SubState) :
    List DiscoveryStrategy → Nat × SubState
  | [] => (0, st)
  | s :: rest =>
    if global_limit ≤ st.subscribed_count then (0, st)
    else
      let r1 := execute_strategy global_limit catalog st s
      let r2 := execute_strategies global_limit catalog r1.2 rest
      (r1.1 + r2.1, r2.2)

theorem subscribe_token_mem (l : List String) (t x : String) (h : x ∈ l) :
    x ∈ subscribe_token l t := by
  unfold subscribe_token
  split_ifs with ht
  · exact h
  · exact List.mem_append_left _ h

theorem subscribe_token_self (l : List String) (t : String) :
    t ∈ subscribe_token l t := by
  unfold subscribe_token
  split_ifs with ht
  · exact ht
  · exact List.mem_append_right _ (List.mem_singleton_self t)

theorem has_rule_mono (p : ParserState) (rule : ThresholdRule) (t : String)
    (h : has_rule_for_token p t = true) :
    has_rule_for_token (add_rule p rule) t = true := by
  unfold has_rule_for_token at h ⊢
  unfold add_rule
  by_cases ht : t = rule.token_id
  · subst ht
    rw [AssocMap.lookup_insert_self]
    rfl
  · rw [AssocMap.lookup_insert_ne _ _ _ _ ht]
    exact h

theorem has_rule_add_self (p : ParserState) (rule : ThresholdRule) :
    has_rule_for_token (add_rule p rule) rule.token_id = true := by
  unfold has_rule_for_token add_rule
  rw [AssocMap.lookup_insert_self]
  rfl

/-- Growth preorder on subscription-manager state: subscriptions, rules
and the subscription counter only grow. -/
def SubLe (s1 s2 : SubState) : Prop :=
  (∀ t, t ∈ s1.subscribed → t ∈ s2.subscribed) ∧
  (∀ t, has_rule_for_token s1.parser t = true →
    has_rule_for_token s2.parser t = true) ∧
  s1.subscribed_count ≤ s2.subscribed_count

theorem SubLe.refl (s : SubState) : SubLe s s :=
  ⟨fun _ h => h, fun _ h => h, le_rfl⟩

theorem SubLe.trans {a b c : SubState} (h1 : SubLe a b) (h2 : SubLe b c) :
    SubLe a c :=
  ⟨fun t ht => h2.1 t (h1.1 t ht), fun t ht => h2.2.1 t (h1.2.1 t ht),
   le_trans h1.2.2 h2.2.2⟩

theorem dup_mono {s1 s2 : SubState} (t : String) (h : SubLe s1 s2)
    (hd : is_duplicate s1 t = true) : is_duplicate s2 t = true := by
  unfold is_duplicate at hd ⊢
  rw [Bool.or_eq_true] at hd ⊢
  rcases hd with hd | hd
  · exact Or.inl (by simpa using h.1 t (by simpa using hd))
  · exact Or.inr (h.2.1 t hd)

theorem add_step_le (st : SubState) (r : DiscoveryResult)
    (strategy : DiscoveryStrategy) :
    SubLe st { add_market st r strategy with
               subscribed_count := st.subscribed_count + 1 } :=
  ⟨fun _ ht => subscribe_token_mem _ _ _ ht,
   fun t ht => has_rule_mono _ _ t ht,
   Nat.le_succ _⟩

theorem add_step_dup (st : SubState) (r : DiscoveryResult)
    (strategy : DiscoveryStrategy) :
    is_duplicate { add_market st r strategy with
                   subscribed_count := st.subscribed_count + 1 }
      r.token_id = true := by
  unfold is_duplicate add_market
  rw [Bool.or_eq_true]
  exact Or.inl (by simpa using subscribe_token_self st.subscribed r.token_id)

theorem add_loop_le (gl : Nat) (strategy : DiscoveryStrategy) :
    ∀ (results : List DiscoveryResult) (st : SubState) (added : Nat),
      SubLe st (add_loop gl strategy results st added).2 := by
  intro results
  induction results with
  | nil => intro st added; exact SubLe.refl st
  | cons r rest ih =>
    intro st added
    unfold add_loop
    split_ifs with h1 h2
    · exact SubLe.refl st
    · exact ih st added
    · exact SubLe.trans (add_step_le st r strategy) (ih _ _)

theorem add_loop_post (gl : Nat) (strategy : DiscoveryStrategy) :
    ∀ (results : List DiscoveryResult) (st : SubState) (added : Nat),
      gl ≤ (add_loop gl strategy results st added).2.subscribed_count ∨
      ∀ r ∈ results,
        is_duplicate (add_loop gl strategy results st added).2 r.token_id = true := by
  intro results
  induction results with
  | nil => intro st added; exact Or.inr (fun r hr => absurd hr (List.not_mem_nil r))
  | cons r rest ih =>
    intro st added
    unfold add_loop
    split_ifs with h1 h2
    · exact Or.inl h1
    · rcases ih st added with hge | hdup
      · exact Or.inl hge
      · refine Or.inr (fun x hx => ?_)
        rcases List.mem_cons.mp hx with rfl | hx2
        · exact dup_mono _ (add_loop_le gl strategy rest st added) h2
        · exact hdup x hx2
    · rcases ih { add_market st r strategy with
          subscribed_count := st.subscribed_count + 1 } (added + 1) with hge | hdup
      · exact Or.inl hge
      · refine Or.inr (fun x hx => ?_)
        rcases List.mem_cons.mp hx with rfl | hx2
        · exact dup_mono _ (add_loop_le gl strategy rest _ _)
            (add_step_dup st x strategy)
        · exact hdup x hx2

theorem add_loop_all_dup (gl : Nat) (strategy : DiscoveryStrategy) :
    ∀ (results : List DiscoveryResult) (st : SubState) (added : Nat),
      (∀ r ∈ results, is_duplicate st r.token_id = true) →
      add_loop gl strategy results st added = (added, st) := by
  intro results
  induction results with
  | nil => intro st added _; rfl
  | cons r rest ih =>
    intro st added h
    unfold add_loop
    split_ifs with h1 h2
    · rfl
    · exact ih st added (fun x hx => h x (List.mem_cons_of_mem _ hx))
    · exact absurd (h r (List.mem_cons_self _ _)) (by simp [h2])

theorem take_subset_take {α : Type} (l : List α) {m n : Nat} (h : m ≤ n) :
    ∀ x ∈ l.take m, x ∈ l.take n := by
  intro x hx
  have heq : l.take m = (l.take n).take m := by
    rw [List.take_take, Nat.min_eq_left h]
  rw [heq] at hx
  exact List.take_subset _ _ hx

theorem execute_strategy_le (gl : Nat)
    (catalog : DiscoveryStrategy → List DiscoveryResult)
    (st : SubState) (strategy : DiscoveryStrategy) :
    SubLe st (execute_strategy gl catalog st strategy).2 := by
  unfold execute_strategy
  dsimp only
  split_ifs with h
  · exact SubLe.refl st
  · exact add_loop_le gl strategy _ st 0

theorem execute_strategy_post (gl : Nat)
    (catalog : DiscoveryStrategy → List DiscoveryResult)
    (st : SubState) (strategy : DiscoveryStrategy) :
    gl ≤ (execute_strategy gl catalog st strategy).2.subscribed_count ∨
    ∀ r ∈ (catalog strategy).take
        (min strategy.max_markets
          (gl - (execute_strategy gl catalog st strategy).2.subscribed_count)),
      is_duplicate (execute_strategy gl catalog st strategy).2 r.token_id = true := by
  unfold execute_strategy
  dsimp only
  split_ifs with h
  · refine Or.inr (fun r hr => ?_)
    rw [h] at hr
    exact absurd hr (List.not_mem_nil r)
  · set st' := (add_loop gl strategy
      ((catalog strategy).take (min strategy.max_markets
        (gl - st.subscribed_count))) st 0).2 with hst'
    rcases add_loop_post gl strategy
        ((catalog strategy).take (min strategy.max_markets
          (gl - st.subscribed_count))) st 0 with hge | hdup
    · exact Or.inl hge
    · refine Or.inr (fun r hr => ?_)
      have hcle : st.subscribed_count ≤ st'.subscribed_count :=
        (add_loop_le gl strategy _ st 0).2.2
      have hlim : min strategy.max_markets (gl - st'.subscribed_count) ≤
          min strategy.max_markets (gl - st.subscribed_count) :=
        min_le_min (le_refl _) (Nat.sub_le_sub_left hcle gl)
      exact hdup r (take_subset_take _ hlim r hr)

theorem execute_strategy_zero (gl : Nat)
    (catalog : DiscoveryStrategy → List DiscoveryResult)
    (st : SubState) (strategy : DiscoveryStrategy)
    (h : ∀ r ∈ (catalog strategy).take
        (min strategy.max_markets (gl - st.subscribed_count)),
      is_duplicate st r.token_id = true) :
    execute_strategy gl catalog st strategy = (0, st) := by
  unfold execute_strategy
  dsimp only
  split_ifs with h0
  · rfl
  · exact add_loop_all_dup gl strategy _ st 0 h

theorem execute_strategies_le (gl : Nat)
    (catalog : DiscoveryStrategy → List DiscoveryResult) :
    ∀ (strats : List DiscoveryStrategy) (st : SubState),
      SubLe st (execute_strategies gl catalog st strats).2 := by
  intro strats
  induction strats with
  | nil => intro st; exact SubLe.refl st
  | cons s rest ih =>
    intro st
    unfold execute_strategies
    split_ifs with h
    · exact SubLe.refl st
    · exact SubLe.trans (execute_strategy_le gl catalog st s)
        (ih (execute_strategy gl catalog st s).2)

/-- A state from which a pass over `strats` can add nothing: either the
global limit is spent, or every result the pass would consider is
already a duplicate. -/
def Saturated (gl : Nat) (catalog : DiscoveryStrategy → List DiscoveryResult)
    (strats : List DiscoveryStrategy) (st : SubState) : Prop :=
  gl ≤ st.subscribed_count ∨
  ∀ strat ∈ strats, ∀ r ∈ (catalog strat).take
      (min strat.max_markets (gl - st.subscribed_count)),
    is_duplicate st r.token_id = true

theorem execute_strategies_sat (gl : Nat)
    (catalog : DiscoveryStrategy → List DiscoveryResult) :
    ∀ (strats : List DiscoveryStrategy) (st : SubState),
      Saturated gl catalog strats (execute_strategies gl catalog st strats).2 := by
  intro strats
  induction strats with
  | nil =>
    intro st
    exact Or.inr (fun strat hs => absurd hs (List.not_mem_nil strat))
  | cons s rest ih =>
    intro st
    unfold execute_strategies
    split_ifs with hge0
    · exact Or.inl hge0
    · set st1 := (execute_strategy gl catalog st s).2 with hst1
      set stF := (execute_strategies gl catalog st1 rest).2 with hstF
      have h1F : SubLe st1 stF := execute_strategies_le gl catalog rest st1
      by_cases hgeF : gl ≤ stF.subscribed_count
      · exact Or.inl hgeF
      · refine Or.inr (fun strat hs => ?_)
        rcases List.mem_cons.mp hs with rfl | hs2
        · rcases execute_strategy_post gl catalog st strat with hge1 | hdup1
          · exact absurd (le_trans hge1 h1F.2.2) hgeF
          · intro r hr
            have hlim : min strat.max_markets (gl - stF.subscribed_count) ≤
                min strat.max_markets (gl - st1.subscribed_count) :=
              min_le_min (le_refl _) (Nat.sub_le_sub_left h1F.2.2 gl)
            exact dup_mono _ h1F (hdup1 r (take_subset_take _ hlim r hr))
        · rcases ih st1 with hge2 | hdup2
          · exact absurd hge2 hgeF
          · exact hdup2 strat hs2

theorem execute_strategies_zero (gl : Nat)
    (catalog : DiscoveryStrategy → List DiscoveryResult) :
    ∀ (strats : List DiscoveryStrategy) (st : SubState),
      Saturated gl catalog strats st →
      execute_strategies gl catalog st strats = (0, st) := by
  intro strats
  induction strats with
  | nil => intro st _; rfl
  | cons s rest ih =>
    intro st hsat
    unfold execute_strategies
    split_ifs with hge
    · rfl
    · rcases hsat with hge2 | hdup
      · exact absurd hge2 hge
      · have h1 : execute_strategy gl catalog st s = (0, st) :=
          execute_strategy_zero gl catalog st s
            (hdup s (List.mem_cons_self _ _))
        have h2 : execute_strategies gl catalog st rest = (0, st) :=
          ih st (Or.inr (fun strat hs => hdup strat (List.mem_cons_of_mem _ hs)))
        rw [h1]
        simp [h2]

/-- C9: discovery dedup.  Running `execute_strategies` a second time
with the same strategy list and the same deterministic external catalog
adds zero markets and leaves the whole state (ingester subscriptions,
parser rules, counter) unchanged: every token the second pass considers
is already subscribed or already has a rule, or the global limit is
already spent. -/
theorem claim_C9 (gl : Nat)
    (catalog : DiscoveryStrategy → List DiscoveryResult)
    (st : SubState) (strats : List DiscoveryStrategy) :
    execute_strategies gl catalog
        (execute_strategies gl catalog st strats).2 strats =
      (0, (execute_strategies gl catalog st strats).2) :=
  execute_strategies_zero gl catalog strats _
    (execute_strategies_sat gl catalog strats st)

end PES
